import Mathlib

/-!
Verification of the distributed token-bucket rate limiter specified by this
repository (a Go test/benchmark harness around a Redis-backed limiter), and of
the load-generation accounting in its comparison benchmark.

The limiter implementation itself lives in the external library
`github.com/moneyforward/mf-common-go/ratelimit`; the repository contains only
its callers and integration tests.  The limiter is therefore modelled from the
spec (section 4.1 of spec.md): bucket state, refill-and-consume, TTL expiry,
and construction-time validation.  Timestamps, token counts and durations are
modelled as rationals (the spec uses real-valued wall-clock seconds and float
token counts; the properties at stake are exact arithmetic facts).

The load-generator accounting (`runScenario` in comparison_test.go) is
embedded directly from the source.
-/

namespace RateLimit

/-- Bucket state stored per key in the external store.
Modelled from the spec: section 3, `BucketState` — `tokens` (current token
count) and `lastRefillAt` (time of the last refill computation). -/
structure BucketState where
  tokens : ℚ
  lastRefillAt : ℚ
  deriving DecidableEq

/-- Immutable limiter configuration.
Modelled from the spec: section 3, `LimiterConfig` — refill rate, capacity,
inactivity TTL and the key namespace (called `prefix` in the spec; renamed
`pfx` here because that word is a Lean keyword). -/
structure LimiterConfig where
  ratePerSecond : ℚ
  capacity : ℚ
  ttl : ℚ
  pfx : String
  deriving DecidableEq

/-- An entry persisted in the store: the bucket state plus its expiry time
(the spec's `ttl` applied as the key's expiry, refreshed on every write). -/
structure StoredEntry where
  state : BucketState
  expiresAt : ℚ
  deriving DecidableEq

/-- The external key-value store, as observed through one key space:
a partial map from full keys to stored entries. -/
abbrev Store := String → Option StoredEntry

/-- A store with no keys set. -/
def emptyStore : Store := fun _ => none

/-- Overwrite one key of the store. -/
def Store.write (s : Store) (k : String) (e : StoredEntry) : Store :=
  fun k2 => if k2 = k then some e else s k2

/-- Full store key.  Modelled from the spec: section 6, "Store key format:
`<prefix><callerKey>` (string concatenation, no delimiter injected)". -/
def fullKey (cfg : LimiterConfig) (callerKey : String) : String :=
  cfg.pfx ++ callerKey

/-- Load the bucket state for a key at time `now`.
Modelled from the spec: the store deletes a key after `ttl` of inactivity
(section 3, lifecycle), so an entry whose expiry time has passed is absent;
an absent key is a fresh bucket (algorithm step 2). -/
def loadState (s : Store) (k : String) (now : ℚ) : Option BucketState :=
  match s k with
  | none => none
  | some e => if e.expiresAt < now then none else some e.state

/-- The bucket state `Allow` starts from: the stored state, or a fresh
bucket `tokens = capacity, lastRefillAt = now` when the key is absent
(algorithm step 2). -/
def loadOrFresh (cfg : LimiterConfig) (s : Store) (callerKey : String) (now : ℚ) :
    BucketState :=
  match loadState s (fullKey cfg callerKey) now with
  | none => { tokens := cfg.capacity, lastRefillAt := now }
  | some b => b

/-- Refill computation.  Modelled from the spec: algorithm step 3 — compute
elapsed seconds since `lastRefillAt`, then
`tokens = min(capacity, tokens + elapsed * ratePerSecond)`. -/
def refillOf (cfg : LimiterConfig) (b : BucketState) (now : ℚ) : ℚ :=
  min cfg.capacity (b.tokens + (now - b.lastRefillAt) * cfg.ratePerSecond)

/-- The refilled token count seen by one `Allow` call. -/
def refilledTokens (cfg : LimiterConfig) (s : Store) (callerKey : String) (now : ℚ) : ℚ :=
  refillOf cfg (loadOrFresh cfg s callerKey now) now

/-- The token count persisted by one `Allow` call: the refilled count minus
one if a token is consumed, unchanged otherwise (algorithm step 4). -/
def postTokens (cfg : LimiterConfig) (s : Store) (callerKey : String) (now : ℚ) : ℚ :=
  if 1 ≤ refilledTokens cfg s callerKey now then refilledTokens cfg s callerKey now - 1
  else refilledTokens cfg s callerKey now

/-- Result of one `Allow` call: the decision, the remaining-token count
reported to the caller, and the store after the atomic update. -/
structure AllowResult where
  allowed : Bool
  remaining : ℤ
  store : Store

/-- One `Allow(ctx, callerKey)` call at time `now`.
Modelled from the spec: section 4.1, algorithm steps 1-6 — resolve the full
key, load or create the bucket, refill, consume one token when
`tokens ≥ 1` (else leave the count unchanged), report `floor(tokens)` as
`remaining`, and persist the updated state with expiry `now + ttl`.
The store round trip is atomic per the spec, so the call is a pure
function of the observed store snapshot. -/
def Allow (cfg : LimiterConfig) (s : Store) (callerKey : String) (now : ℚ) :
    AllowResult :=
  let k := fullKey cfg callerKey
  let st := loadOrFresh cfg s callerKey now
  let refilled := refillOf cfg st now
  if 1 ≤ refilled then
    { allowed := true
      remaining := ⌊refilled - 1⌋
      store := s.write k ⟨⟨refilled - 1, now⟩, now + cfg.ttl⟩ }
  else
    { allowed := false
      remaining := ⌊refilled⌋
      store := s.write k ⟨⟨refilled, now⟩, now + cfg.ttl⟩ }

/-- The store after one `Allow` call (used to iterate calls). -/
def stepStore (cfg : LimiterConfig) (callerKey : String) (now : ℚ) (s : Store) : Store :=
  (Allow cfg s callerKey now).store

/-- Run a sequence of `Allow` calls, each given as (callerKey, time), from a
starting store; returns the (allowed, remaining) results in order. -/
def runCalls (cfg : LimiterConfig) : Store → List (String × ℚ) → List (Bool × ℤ)
  | _, [] => []
  | s, (k, t) :: rest =>
    let r := Allow cfg s k t
    (r.allowed, r.remaining) :: runCalls cfg r.store rest

/-- Construction-time configuration errors.
Modelled from the spec: section 7, `ConfigurationError` — invalid
construction parameters (non-positive rate/capacity/ttl). -/
inductive ConfigError where
  | nonPositiveRate
  | nonPositiveCapacity
  | nonPositiveTTL
  deriving DecidableEq

/-- Limiter constructor.  Modelled from the spec: construction-time
misconfiguration (`ratePerSecond ≤ 0`, `capacity ≤ 0`, and per the error
taxonomy non-positive `ttl`) fails fast before any `Allow` call is
possible; a successfully constructed limiter carries exactly the supplied
configuration. -/
def NewRedisRateLimiter (rate cap ttl : ℚ) (pfx : String) :
    Except ConfigError LimiterConfig :=
  if rate ≤ 0 then .error .nonPositiveRate
  else if cap ≤ 0 then .error .nonPositiveCapacity
  else if ttl ≤ 0 then .error .nonPositiveTTL
  else .ok ⟨rate, cap, ttl, pfx⟩

/-- The limiter configuration used by TestRedisRateLimiter_BurstThenDeny:
ratePerSecond 1, capacity 3, ttl 5 seconds. -/
def cfgBurst : LimiterConfig := ⟨1, 3, 5, "test:rl:"⟩

/-- The limiter configuration used by TestRedisRateLimiter_RefillsOverTime:
ratePerSecond 2, capacity 2, ttl 5 seconds. -/
def cfgRefill : LimiterConfig := ⟨2, 2, 5, "test:rl:"⟩

/-- The limiter configuration used by TestRedisRateLimiter_TTLResetsState:
ratePerSecond 1, capacity 2, ttl 1 second. -/
def cfgTTL : LimiterConfig := ⟨1, 2, 1, "test:rl:"⟩

/-- The limiter configuration used by TestRedisRateLimiter_IsolatedPerKey:
ratePerSecond 1, capacity 2, ttl 5 seconds. -/
def cfgIso : LimiterConfig := ⟨1, 2, 5, "test:rl:"⟩

/-- Limiter A of TestRedisRateLimiter_IsolatedPerPrefix: same rate, capacity
and ttl as limiter B, namespace "test:rl:A:". -/
def cfgIsoA : LimiterConfig := ⟨1, 2, 5, "test:rl:A:"⟩

/-- Limiter B of TestRedisRateLimiter_IsolatedPerPrefix: same rate, capacity
and ttl as limiter A, namespace "test:rl:B:". -/
def cfgIsoB : LimiterConfig := ⟨1, 2, 5, "test:rl:B:"⟩

/-- The store of TestRedisRateLimiter_RefillsOverTime after the exhausting
phase: three calls (two allowed, one denied) at time 0. -/
def refillExhausted : Store :=
  (stepStore cfgRefill "user:refill" 0)^[3] emptyStore

/-- The store of TestRedisRateLimiter_TTLResetsState after the exhausting
phase: three calls (two allowed, one denied) at time 0. -/
def ttlExhausted : Store :=
  (stepStore cfgTTL "user:ttl" 0)^[3] emptyStore

/-- All stored buckets have a non-negative token count and a refill
timestamp no later than `t`. -/
def StoreOK (s : Store) (t : ℚ) : Prop :=
  ∀ k e, s k = some e → 0 ≤ e.state.tokens ∧ e.state.lastRefillAt ≤ t

/-- The per-request counters of the comparison benchmark
(comparison_test.go, `loadStats`; only the four request counters the
accounting claim is about — the memory statistics are omitted). -/
structure LoadStats where
  total : ℕ
  allowed : ℕ
  denied : ℕ
  errs : ℕ
  deriving DecidableEq

/-- Outcome of one issued request in the load loop: the call returned an
error, or it returned allowed, or it returned denied. -/
inductive ReqOutcome where
  | errored
  | allowedReq
  | deniedReq
  deriving DecidableEq

/-- The accounting step of the load loop in `runScenario`
(comparison_test.go): `total` is incremented for every issued request, then
exactly one of `errs` (on error, with `continue`), `allowed`, or `denied`. -/
def countRequest (st : LoadStats) (o : ReqOutcome) : LoadStats :=
  match o with
  | .errored => { st with total := st.total + 1, errs := st.errs + 1 }
  | .allowedReq => { st with total := st.total + 1, allowed := st.allowed + 1 }
  | .deniedReq => { st with total := st.total + 1, denied := st.denied + 1 }

/-- The counters accumulated by a completed `runScenario` run over the
requests it issued (in some serialization of the atomic increments). -/
def scenarioStats (os : List ReqOutcome) : LoadStats :=
  os.foldl countRequest ⟨0, 0, 0, 0⟩

/-- The per-worker request rate assigned by `runScenario`
(comparison_test.go): `base = seg.rps / concurrency` for every worker, plus
one for each worker whose index is below `seg.rps % concurrency`. -/
def perWorkerRate (rps concurrency worker : ℕ) : ℕ :=
  rps / concurrency + if worker < rps % concurrency then 1 else 0

/-- The store after a sequence of `Allow` calls for one caller key, made at
the given times. -/
def iterCallsOn (cfg : LimiterConfig) (callerKey : String) (s : Store)
    (times : List ℚ) : Store :=
  times.foldl (fun st t => stepStore cfg callerKey t st) s

/-! ### Basic lemmas about the store and one `Allow` step -/

theorem Store.write_self (s : Store) (k : String) (e : StoredEntry) :
    s.write k e k = some e := by
  simp [Store.write]

theorem Store.write_other (s : Store) (k k2 : String) (e : StoredEntry)
    (h : k2 ≠ k) : s.write k e k2 = s k2 := by
  simp [Store.write, h]

theorem loadOrFresh_of_none {cfg : LimiterConfig} {s : Store} {key : String} {now : ℚ}
    (h : loadState s (fullKey cfg key) now = none) :
    loadOrFresh cfg s key now = ⟨cfg.capacity, now⟩ := by
  unfold loadOrFresh
  rw [h]

theorem loadOrFresh_of_some {cfg : LimiterConfig} {s : Store} {key : String} {now : ℚ}
    {b : BucketState} (h : loadState s (fullKey cfg key) now = some b) :
    loadOrFresh cfg s key now = b := by
  unfold loadOrFresh
  rw [h]

theorem refillOf_fresh (cfg : LimiterConfig) (now : ℚ) :
    refillOf cfg ⟨cfg.capacity, now⟩ now = cfg.capacity := by
  simp [refillOf]

theorem Allow_def (cfg : LimiterConfig) (s : Store) (key : String) (now : ℚ) :
    Allow cfg s key now =
      if 1 ≤ refilledTokens cfg s key now then
        { allowed := true
          remaining := ⌊refilledTokens cfg s key now - 1⌋
          store := s.write (fullKey cfg key)
            ⟨⟨refilledTokens cfg s key now - 1, now⟩, now + cfg.ttl⟩ }
      else
        { allowed := false
          remaining := ⌊refilledTokens cfg s key now⌋
          store := s.write (fullKey cfg key)
            ⟨⟨refilledTokens cfg s key now, now⟩, now + cfg.ttl⟩ } := rfl

theorem Allow_allowed_eq (cfg : LimiterConfig) (s : Store) (key : String) (now : ℚ) :
    (Allow cfg s key now).allowed = decide (1 ≤ refilledTokens cfg s key now) := by
  rw [Allow_def]
  by_cases h : 1 ≤ refilledTokens cfg s key now <;> simp [h]

theorem Allow_remaining_eq (cfg : LimiterConfig) (s : Store) (key : String) (now : ℚ) :
    (Allow cfg s key now).remaining = ⌊postTokens cfg s key now⌋ := by
  rw [Allow_def]
  unfold postTokens
  by_cases h : 1 ≤ refilledTokens cfg s key now <;> simp [h]

theorem Allow_store_eq (cfg : LimiterConfig) (s : Store) (key : String) (now : ℚ) :
    (Allow cfg s key now).store
      = s.write (fullKey cfg key) ⟨⟨postTokens cfg s key now, now⟩, now + cfg.ttl⟩ := by
  rw [Allow_def]
  unfold postTokens
  by_cases h : 1 ≤ refilledTokens cfg s key now <;> simp [h]

theorem Allow_store_other (cfg : LimiterConfig) (s : Store) (key : String) (now : ℚ)
    (k2 : String) (h : k2 ≠ fullKey cfg key) :
    (Allow cfg s key now).store k2 = s k2 := by
  rw [Allow_store_eq, Store.write_other _ _ _ _ h]

/-- `Allow` reads the store only at the full key it resolves. -/
theorem Allow_congr (cfg : LimiterConfig) (s1 s2 : Store) (key : String) (now : ℚ)
    (h : s1 (fullKey cfg key) = s2 (fullKey cfg key)) :
    (Allow cfg s1 key now).allowed = (Allow cfg s2 key now).allowed ∧
      (Allow cfg s1 key now).remaining = (Allow cfg s2 key now).remaining := by
  have hload : loadState s1 (fullKey cfg key) now = loadState s2 (fullKey cfg key) now := by
    unfold loadState
    rw [h]
  have hfresh : loadOrFresh cfg s1 key now = loadOrFresh cfg s2 key now := by
    unfold loadOrFresh
    rw [hload]
  have href : refilledTokens cfg s1 key now = refilledTokens cfg s2 key now := by
    unfold refilledTokens
    rw [hfresh]
  have hpost : postTokens cfg s1 key now = postTokens cfg s2 key now := by
    unfold postTokens
    rw [href]
  refine ⟨?_, ?_⟩
  · rw [Allow_allowed_eq, Allow_allowed_eq, href]
  · rw [Allow_remaining_eq, Allow_remaining_eq, hpost]

/-! ### Key-space lemmas: same-instance keys and cross-instance namespaces -/

theorem string_ext {a b : String} (h : a.data = b.data) : a = b := by
  cases a
  cases b
  exact congrArg String.mk h

theorem fullKey_inj_key (cfg : LimiterConfig) {a b : String}
    (h : fullKey cfg a = fullKey cfg b) : a = b := by
  unfold fullKey at h
  have hd : (cfg.pfx ++ a).data = (cfg.pfx ++ b).data := by rw [h]
  simp only [String.data_append] at hd
  exact string_ext (List.append_cancel_left hd)

theorem fullKey_inj_pfx {cfgA cfgB : LimiterConfig} {key : String}
    (h : fullKey cfgA key = fullKey cfgB key) : cfgA.pfx = cfgB.pfx := by
  unfold fullKey at h
  have hd : (cfgA.pfx ++ key).data = (cfgB.pfx ++ key).data := by rw [h]
  simp only [String.data_append] at hd
  exact string_ext (List.append_cancel_right hd)

/-! ### A call sequence touches only its own full key -/

theorem stepStore_other (cfg : LimiterConfig) (key : String) (now : ℚ) (s : Store)
    (k2 : String) (h : k2 ≠ fullKey cfg key) :
    stepStore cfg key now s k2 = s k2 :=
  Allow_store_other cfg s key now k2 h

theorem iterCallsOn_other (cfg : LimiterConfig) (key k2 : String)
    (h : k2 ≠ fullKey cfg key) (times : List ℚ) :
    ∀ s : Store, iterCallsOn cfg key s times k2 = s k2 := by
  induction times with
  | nil => intro s; rfl
  | cons t rest ih =>
    intro s
    unfold iterCallsOn at ih ⊢
    rw [List.foldl_cons, ih]
    exact stepStore_other cfg key t s k2 h

/-- `Allow` behaves the same over two stores that load the same bucket state
for the resolved key, and writes the same entry there. -/
theorem Allow_congr_load (cfg : LimiterConfig) (s1 s2 : Store) (key : String) (now : ℚ)
    (h : loadState s1 (fullKey cfg key) now = loadState s2 (fullKey cfg key) now) :
    (Allow cfg s1 key now).allowed = (Allow cfg s2 key now).allowed ∧
      (Allow cfg s1 key now).remaining = (Allow cfg s2 key now).remaining ∧
      (Allow cfg s1 key now).store (fullKey cfg key)
        = (Allow cfg s2 key now).store (fullKey cfg key) := by
  have hfresh : loadOrFresh cfg s1 key now = loadOrFresh cfg s2 key now := by
    unfold loadOrFresh
    rw [h]
  have href : refilledTokens cfg s1 key now = refilledTokens cfg s2 key now := by
    unfold refilledTokens
    rw [hfresh]
  have hpost : postTokens cfg s1 key now = postTokens cfg s2 key now := by
    unfold postTokens
    rw [href]
  refine ⟨?_, ?_, ?_⟩
  · rw [Allow_allowed_eq, Allow_allowed_eq, href]
  · rw [Allow_remaining_eq, Allow_remaining_eq, hpost]
  · rw [Allow_store_eq, Allow_store_eq, Store.write_self, Store.write_self, hpost]

/-! ### Fresh keys -/

theorem refilledTokens_of_fresh (cfg : LimiterConfig) (s : Store) (key : String)
    (now : ℚ) (h : loadState s (fullKey cfg key) now = none) :
    refilledTokens cfg s key now = cfg.capacity := by
  unfold refilledTokens
  rw [loadOrFresh_of_none h]
  exact refillOf_fresh cfg now

theorem Allow_fresh_allowed (cfg : LimiterConfig) (s : Store) (key : String) (now : ℚ)
    (hcap : 1 ≤ cfg.capacity) (h : loadState s (fullKey cfg key) now = none) :
    (Allow cfg s key now).allowed = true ∧
      (Allow cfg s key now).remaining = ⌊cfg.capacity - 1⌋ := by
  have href := refilledTokens_of_fresh cfg s key now h
  have h1 : 1 ≤ refilledTokens cfg s key now := href ▸ hcap
  constructor
  · rw [Allow_allowed_eq]
    simpa using h1
  · rw [Allow_remaining_eq]
    unfold postTokens
    rw [if_pos h1, href]

theorem loadState_empty (k : String) (now : ℚ) :
    loadState emptyStore k now = none := rfl

theorem loadState_some (s : Store) (k : String) (now : ℚ) (e : StoredEntry)
    (h : s k = some e) :
    loadState s k now = if e.expiresAt < now then none else some e.state := by
  unfold loadState
  rw [h]

/-! ### Non-negativity machinery -/

theorem loadOrFresh_ok (cfg : LimiterConfig) (s : Store) (key : String) (now : ℚ)
    (hc : 0 ≤ cfg.capacity) (hs : StoreOK s now) :
    0 ≤ (loadOrFresh cfg s key now).tokens ∧
      (loadOrFresh cfg s key now).lastRefillAt ≤ now := by
  unfold loadOrFresh loadState
  cases hsk : s (fullKey cfg key) with
  | none => exact ⟨hc, le_refl now⟩
  | some e =>
    by_cases hx : e.expiresAt < now
    · simp only [hx, if_pos]
      exact ⟨hc, le_refl now⟩
    · simp only [hx, if_neg, not_false_iff]
      exact hs _ e hsk

theorem refilledTokens_nonneg (cfg : LimiterConfig) (s : Store) (key : String)
    (now : ℚ) (hr : 0 ≤ cfg.ratePerSecond) (hc : 0 ≤ cfg.capacity)
    (hs : StoreOK s now) : 0 ≤ refilledTokens cfg s key now := by
  obtain ⟨htok, hlast⟩ := loadOrFresh_ok cfg s key now hc hs
  unfold refilledTokens refillOf
  refine le_min hc ?_
  have helapsed : 0 ≤ now - (loadOrFresh cfg s key now).lastRefillAt := by linarith
  have := mul_nonneg helapsed hr
  linarith

theorem postTokens_nonneg (cfg : LimiterConfig) (s : Store) (key : String)
    (now : ℚ) (hr : 0 ≤ cfg.ratePerSecond) (hc : 0 ≤ cfg.capacity)
    (hs : StoreOK s now) : 0 ≤ postTokens cfg s key now := by
  have h0 := refilledTokens_nonneg cfg s key now hr hc hs
  unfold postTokens
  by_cases h1 : 1 ≤ refilledTokens cfg s key now
  · rw [if_pos h1]
    linarith
  · rw [if_neg h1]
    exact h0

theorem Allow_remaining_nonneg (cfg : LimiterConfig) (s : Store) (key : String)
    (now : ℚ) (hr : 0 ≤ cfg.ratePerSecond) (hc : 0 ≤ cfg.capacity)
    (hs : StoreOK s now) : 0 ≤ (Allow cfg s key now).remaining := by
  rw [Allow_remaining_eq]
  exact Int.le_floor.mpr (by exact_mod_cast postTokens_nonneg cfg s key now hr hc hs)

theorem StoreOK.mono {s : Store} {t t2 : ℚ} (h : t ≤ t2) (hs : StoreOK s t) :
    StoreOK s t2 := by
  intro k e hke
  obtain ⟨h1, h2⟩ := hs k e hke
  exact ⟨h1, le_trans h2 h⟩

theorem StoreOK.step (cfg : LimiterConfig) (s : Store) (key : String) (now : ℚ)
    (hr : 0 ≤ cfg.ratePerSecond) (hc : 0 ≤ cfg.capacity) (ht : 0 ≤ cfg.ttl)
    (hs : StoreOK s now) : StoreOK (Allow cfg s key now).store now := by
  intro k e hke
  rw [Allow_store_eq] at hke
  unfold Store.write at hke
  by_cases hk : k = fullKey cfg key
  · rw [if_pos hk] at hke
    cases hke
    exact ⟨postTokens_nonneg cfg s key now hr hc hs, le_refl now⟩
  · rw [if_neg hk] at hke
    exact hs k e hke

theorem StoreOK.empty (t : ℚ) : StoreOK emptyStore t := by
  intro k e hke
  cases hke

/-- All `remaining` values produced by a monotone-in-time call sequence from
a well-formed store are non-negative. -/
theorem runCalls_nonneg (cfg : LimiterConfig)
    (hr : 0 ≤ cfg.ratePerSecond) (hc : 0 ≤ cfg.capacity) (ht : 0 ≤ cfg.ttl) :
    ∀ (calls : List (String × ℚ)) (s : Store) (t0 : ℚ), StoreOK s t0 →
      List.Pairwise (fun x y => x ≤ y) (t0 :: calls.map Prod.snd) →
      ∀ r ∈ runCalls cfg s calls, 0 ≤ r.2 := by
  intro calls
  induction calls with
  | nil =>
    intro s t0 _ _ r hr2
    cases hr2
  | cons c rest ih =>
    intro s t0 hs hpair r hmem
    obtain ⟨k, t⟩ := c
    rw [List.map_cons] at hpair
    have ht0t : t0 ≤ t := (List.pairwise_cons.mp hpair).1 t (by simp)
    have hst : StoreOK s t := StoreOK.mono ht0t hs
    have hpair2 : List.Pairwise (fun x y => x ≤ y) (t :: rest.map Prod.snd) :=
      (List.pairwise_cons.mp hpair).2
    unfold runCalls at hmem
    rcases List.mem_cons.mp hmem with heq | hmem2
    · subst heq
      exact Allow_remaining_nonneg cfg s k t hr hc hst
    · exact ih (Allow cfg s k t).store t (StoreOK.step cfg s k t hr hc ht hst) hpair2 r hmem2

/-! ### Burst behaviour on a fresh key -/

theorem loadState_write_self (s : Store) (k : String) (e : StoredEntry) (now : ℚ)
    (h : ¬ e.expiresAt < now) : loadState (s.write k e) k now = some e.state := by
  simp [loadState, Store.write, h]

/-- After `n ≤ ⌊capacity⌋` immediate `Allow` calls on a fresh key, the
loaded bucket holds `capacity - n` tokens. -/
theorem iterAllow_load (cfg : LimiterConfig) (key : String) (now : ℚ)
    (ht : 0 ≤ cfg.ttl) :
    ∀ n : ℕ, (n : ℤ) ≤ ⌊cfg.capacity⌋ →
      loadOrFresh cfg ((stepStore cfg key now)^[n] emptyStore) key now
        = ⟨cfg.capacity - n, now⟩ := by
  intro n
  induction n with
  | zero =>
    intro _
    rw [Function.iterate_zero_apply, loadOrFresh_of_none (loadState_empty _ _)]
    norm_num
  | succ n ih =>
    intro hn
    have hn2 : (n : ℤ) ≤ ⌊cfg.capacity⌋ := by
      push_cast at hn
      omega
    have hload := ih hn2
    have hfloor : ((⌊cfg.capacity⌋ : ℤ) : ℚ) ≤ cfg.capacity := Int.floor_le _
    have hcapn : (1 : ℚ) ≤ cfg.capacity - n := by
      have h1 : ((n : ℤ) + 1 : ℚ) ≤ ((⌊cfg.capacity⌋ : ℤ) : ℚ) := by
        exact_mod_cast hn
      push_cast at h1
      linarith
    have href : refilledTokens cfg ((stepStore cfg key now)^[n] emptyStore) key now
        = cfg.capacity - n := by
      unfold refilledTokens
      rw [hload]
      unfold refillOf
      rw [sub_self, zero_mul, add_zero]
      exact min_eq_right (by simp [sub_le_self_iff])
    have h1r : 1 ≤ refilledTokens cfg ((stepStore cfg key now)^[n] emptyStore) key now :=
      href ▸ hcapn
    have hexp : ¬ (now + cfg.ttl < now) := by linarith
    rw [Function.iterate_succ_apply']
    have hstep : stepStore cfg key now ((stepStore cfg key now)^[n] emptyStore)
        = ((stepStore cfg key now)^[n] emptyStore).write (fullKey cfg key)
          ⟨⟨postTokens cfg ((stepStore cfg key now)^[n] emptyStore) key now, now⟩,
            now + cfg.ttl⟩ :=
      Allow_store_eq cfg _ key now
    rw [hstep, loadOrFresh_of_some (loadState_write_self _ _ _ _ hexp)]
    have hpost : postTokens cfg ((stepStore cfg key now)^[n] emptyStore) key now
        = cfg.capacity - (n + 1 : ℕ) := by
      unfold postTokens
      rw [if_pos h1r, href]
      push_cast
      ring
    rw [hpost]

/-- A bucket loaded with refill timestamp `now` and `x ≤ capacity` tokens
refills to exactly `x` tokens (zero elapsed time adds nothing). -/
theorem refilledTokens_same_time (cfg : LimiterConfig) (s : Store) (key : String)
    (now x : ℚ) (h : loadOrFresh cfg s key now = ⟨x, now⟩) (hx : x ≤ cfg.capacity) :
    refilledTokens cfg s key now = x := by
  unfold refilledTokens
  rw [h]
  unfold refillOf
  rw [sub_self, zero_mul, add_zero]
  exact min_eq_right hx

/-! ### Claim theorems -/

/-- C1: on a fresh key, each of the first `⌊capacity⌋` immediate `Allow`
calls is allowed; with ratePerSecond 1 and capacity 3, the first three calls
return allowed with remaining 2, 1, 0 and the fourth (made before any
refill) is denied. -/
theorem allow_burst_then_deny (cfg : LimiterConfig) (key : String) (now : ℚ)
    (hrate : 0 < cfg.ratePerSecond) (hcap : 0 < cfg.capacity) (httl : 0 < cfg.ttl)
    (i : ℕ) (hi : (i : ℤ) < ⌊cfg.capacity⌋) :
    (Allow cfg ((stepStore cfg key now)^[i] emptyStore) key now).allowed = true ∧
      runCalls cfgBurst emptyStore (List.replicate 4 ("user:burst", 0))
        = [(true, 2), (true, 1), (true, 0), (false, 0)] := by
  constructor
  · have hload := iterAllow_load cfg key now (le_of_lt httl) i (le_of_lt hi)
    have hcapi : (1 : ℚ) ≤ cfg.capacity - i := by
      have h1 : ((i : ℤ) + 1 : ℚ) ≤ ((⌊cfg.capacity⌋ : ℤ) : ℚ) := by
        exact_mod_cast hi
      have h2 : ((⌊cfg.capacity⌋ : ℤ) : ℚ) ≤ cfg.capacity := Int.floor_le _
      push_cast at h1
      linarith
    have href := refilledTokens_same_time cfg _ key now (cfg.capacity - i) hload
      (by simp [sub_le_self_iff])
    rw [Allow_allowed_eq, href]
    exact decide_eq_true hcapi
  · norm_num [runCalls, Allow, refillOf, loadOrFresh, loadState, emptyStore,
      Store.write, fullKey, cfgBurst, List.replicate]

/-- Witness for C1 at the configuration of TestRedisRateLimiter_BurstThenDeny:
rate 1, capacity 3, first call (i = 0) on a fresh key is allowed. -/
theorem allow_burst_then_deny_witness :
    (0 < cfgBurst.ratePerSecond ∧ 0 < cfgBurst.capacity ∧ 0 < cfgBurst.ttl ∧
        ((0 : ℕ) : ℤ) < ⌊cfgBurst.capacity⌋) ∧
      (Allow cfgBurst ((stepStore cfgBurst "user:burst" 0)^[0] emptyStore)
        "user:burst" 0).allowed = true :=
  ⟨⟨by norm_num [cfgBurst], by norm_num [cfgBurst], by norm_num [cfgBurst],
      by norm_num [cfgBurst]⟩,
    (allow_burst_then_deny cfgBurst "user:burst" 0 (by norm_num [cfgBurst])
      (by norm_num [cfgBurst]) (by norm_num [cfgBurst]) 0 (by norm_num [cfgBurst])).1⟩

/-- C8: constructing a limiter succeeds exactly when ratePerSecond, capacity
and ttl are all positive; invalid parameters yield an error from the
constructor itself, and a successful construction carries exactly the
supplied configuration (so no configuration error can arise at call time). -/
theorem construction_fails_fast (rate cap ttl : ℚ) (p : String) :
    ((∃ cfg, NewRedisRateLimiter rate cap ttl p = .ok cfg) ↔
        0 < rate ∧ 0 < cap ∧ 0 < ttl) ∧
      (∀ cfg, NewRedisRateLimiter rate cap ttl p = .ok cfg →
        cfg = ⟨rate, cap, ttl, p⟩) ∧
      (¬(0 < rate ∧ 0 < cap ∧ 0 < ttl) →
        ∃ e, NewRedisRateLimiter rate cap ttl p = .error e) := by
  unfold NewRedisRateLimiter
  refine ⟨⟨?_, ?_⟩, ?_, ?_⟩
  · rintro ⟨cfg, hcfg⟩
    split_ifs at hcfg with h1 h2 h3
    · exact ⟨not_le.mp h1, not_le.mp h2, not_le.mp h3⟩
  · rintro ⟨hr, hc, ht⟩
    rw [if_neg (not_le.mpr hr), if_neg (not_le.mpr hc), if_neg (not_le.mpr ht)]
    exact ⟨_, rfl⟩
  · intro cfg hcfg
    split_ifs at hcfg
    injection hcfg with h
    exact h.symm
  · intro hbad
    split_ifs with h1 h2 h3
    · exact ⟨_, rfl⟩
    · exact ⟨_, rfl⟩
    · exact ⟨_, rfl⟩
    · exact absurd ⟨not_le.mp h1, not_le.mp h2, not_le.mp h3⟩ hbad

/-- Every load-loop accounting step adds one to `total` and one to exactly
one of `allowed`, `denied`, `errs`. -/
theorem scenarioStats_aux (os : List ReqOutcome) : ∀ st : LoadStats,
    (os.foldl countRequest st).total = st.total + os.length ∧
      (os.foldl countRequest st).allowed + (os.foldl countRequest st).denied
          + (os.foldl countRequest st).errs
        = st.allowed + st.denied + st.errs + os.length := by
  induction os with
  | nil =>
    intro st
    simp
  | cons o rest ih =>
    intro st
    rw [List.foldl_cons]
    obtain ⟨h1, h2⟩ := ih (countRequest st o)
    cases o <;> simp [countRequest] at h1 h2 ⊢ <;> omega

/-- C9: for every completed run, the counters satisfy
total = allowed + denied + errs, and total counts every issued request
exactly once. -/
theorem scenarioStats_accounting (os : List ReqOutcome) :
    (scenarioStats os).total
        = (scenarioStats os).allowed + (scenarioStats os).denied
          + (scenarioStats os).errs ∧
      (scenarioStats os).total = os.length := by
  obtain ⟨h1, h2⟩ := scenarioStats_aux os ⟨0, 0, 0, 0⟩
  simp only [] at h1 h2
  unfold scenarioStats
  constructor
  · omega
  · omega

/-- C10: the per-worker rates assigned by the load generator sum exactly to
the segment rate across all workers. -/
theorem perWorkerRate_sum (rps concurrency : ℕ) (h : 1 ≤ concurrency) :
    (Finset.range concurrency).sum (fun w => perWorkerRate rps concurrency w)
      = rps := by
  unfold perWorkerRate
  rw [Finset.sum_add_distrib]
  have hmod : rps % concurrency < concurrency := Nat.mod_lt _ h
  have hfill : (Finset.range concurrency).filter (fun w => w < rps % concurrency)
      = Finset.range (rps % concurrency) := by
    ext x
    simp only [Finset.mem_filter, Finset.mem_range]
    omega
  rw [Finset.sum_boole]
  simp only [hfill, Finset.card_range, Nat.cast_id, Finset.sum_const,
    Finset.card_range, smul_eq_mul]
  exact Nat.div_add_mod rps concurrency

/-- Witness for C10 at rps 7, concurrency 3: workers get 3, 3, 2 requests
per second, summing to 7. -/
theorem perWorkerRate_sum_witness :
    1 ≤ 3 ∧ (Finset.range 3).sum (fun w => perWorkerRate 7 3 w) = 7 :=
  ⟨by norm_num, perWorkerRate_sum 7 3 (by norm_num)⟩

/-- The refill-test store after exhaustion holds an empty bucket last
refilled at time 0, expiring at time 5. -/
theorem refillExhausted_entry :
    refillExhausted (fullKey cfgRefill "user:refill") = some ⟨⟨0, 0⟩, 5⟩ := by
  norm_num [refillExhausted, stepStore, Allow, refillOf, loadOrFresh, loadState,
    emptyStore, Store.write, fullKey, cfgRefill, Function.iterate_succ,
    Function.iterate_zero]

/-- The TTL-test store after exhaustion holds an empty bucket last refilled
at time 0, expiring at time 1. -/
theorem ttlExhausted_entry :
    ttlExhausted (fullKey cfgTTL "user:ttl") = some ⟨⟨0, 0⟩, 1⟩ := by
  norm_num [ttlExhausted, stepStore, Allow, refillOf, loadOrFresh, loadState,
    emptyStore, Store.write, fullKey, cfgTTL, Function.iterate_succ,
    Function.iterate_zero]

/-- C2: each `Allow` call refills to min(capacity, tokens + elapsed * rate),
then consumes one token exactly when the refilled count is at least 1,
reports the floor of the resulting count, and persists it with
lastRefillAt = now and expiry now + ttl; in particular, after exhausting a
capacity-2, rate-2 bucket, a retry at least 0.5 seconds later (within the
5-second ttl) is allowed. -/
theorem allow_refill_spec (Δ : ℚ) (h1 : 1/2 ≤ Δ) (h2 : Δ ≤ 5) :
    (∀ (cfg : LimiterConfig) (s : Store) (key : String) (now : ℚ),
        ((Allow cfg s key now).allowed = true ↔ 1 ≤ refilledTokens cfg s key now) ∧
          (1 ≤ refilledTokens cfg s key now →
            (Allow cfg s key now).remaining = ⌊refilledTokens cfg s key now - 1⌋ ∧
              (Allow cfg s key now).store (fullKey cfg key)
                = some ⟨⟨refilledTokens cfg s key now - 1, now⟩, now + cfg.ttl⟩) ∧
          (refilledTokens cfg s key now < 1 →
            (Allow cfg s key now).remaining = ⌊refilledTokens cfg s key now⌋ ∧
              (Allow cfg s key now).store (fullKey cfg key)
                = some ⟨⟨refilledTokens cfg s key now, now⟩, now + cfg.ttl⟩)) ∧
      (Allow cfgRefill refillExhausted "user:refill" Δ).allowed = true := by
  constructor
  · intro cfg s key now
    refine ⟨?_, ?_, ?_⟩
    · rw [Allow_allowed_eq]
      simp
    · intro h
      rw [Allow_def, if_pos h]
      exact ⟨rfl, Store.write_self _ _ _⟩
    · intro h
      rw [Allow_def, if_neg (not_le.mpr h)]
      exact ⟨rfl, Store.write_self _ _ _⟩
  · have hload : loadState refillExhausted (fullKey cfgRefill "user:refill") Δ
        = some ⟨0, 0⟩ := by
      rw [loadState_some _ _ Δ _ refillExhausted_entry]
      exact if_neg (show ¬ ((5 : ℚ) < Δ) by linarith)
    have href : refilledTokens cfgRefill refillExhausted "user:refill" Δ
        = min 2 (Δ * 2) := by
      unfold refilledTokens
      rw [loadOrFresh_of_some hload]
      unfold refillOf
      norm_num [cfgRefill]
    have hge : (1 : ℚ) ≤ min 2 (Δ * 2) := le_min (by norm_num) (by linarith)
    rw [Allow_allowed_eq, href]
    exact decide_eq_true hge

/-- Witness for C2 at a wait of exactly one second after exhaustion. -/
theorem allow_refill_spec_witness :
    ((1 : ℚ)/2 ≤ 1 ∧ (1 : ℚ) ≤ 5) ∧
      (Allow cfgRefill refillExhausted "user:refill" 1).allowed = true :=
  ⟨⟨by norm_num, by norm_num⟩,
    (allow_refill_spec 1 (by norm_num) (by norm_num)).2⟩

/-- Evaluation of the burst-test trace: four immediate calls on a fresh key
under rate 1, capacity 3. -/
theorem burstTrace_eval :
    runCalls cfgBurst emptyStore (List.replicate 4 ("user:burst", 0))
      = [(true, 2), (true, 1), (true, 0), (false, 0)] := by
  norm_num [runCalls, Allow, refillOf, loadOrFresh, loadState, emptyStore,
    Store.write, fullKey, cfgBurst, List.replicate]

/-- C3: over any monotone-in-time sequence of `Allow` calls from an empty
store, under any validly configured limiter, every returned `remaining`
value is non-negative. -/
theorem remaining_never_negative (cfg : LimiterConfig)
    (hr : 0 < cfg.ratePerSecond) (hc : 0 < cfg.capacity) (ht : 0 < cfg.ttl)
    (calls : List (String × ℚ))
    (hmono : List.Pairwise (fun x y => x ≤ y) (calls.map Prod.snd)) :
    ∀ r ∈ runCalls cfg emptyStore calls, 0 ≤ r.2 := by
  cases calls with
  | nil =>
    intro r hr2
    cases hr2
  | cons c rest =>
    rw [List.map_cons] at hmono
    obtain ⟨hhead, htail⟩ := List.pairwise_cons.mp hmono
    apply runCalls_nonneg cfg (le_of_lt hr) (le_of_lt hc) (le_of_lt ht)
      (c :: rest) emptyStore c.2 (StoreOK.empty c.2)
    rw [List.map_cons]
    refine List.Pairwise.cons ?_ hmono
    intro y hy
    rcases List.mem_cons.mp hy with rfl | hy2
    · exact le_refl _
    · exact hhead y hy2

/-- Witness for C3 on the burst-test trace: the first result has
remaining 2 ≥ 0. -/
theorem remaining_never_negative_witness :
    (0 < cfgBurst.ratePerSecond ∧ 0 < cfgBurst.capacity ∧ 0 < cfgBurst.ttl ∧
        List.Pairwise (fun x y => x ≤ y)
          ((List.replicate 4 (("user:burst", (0 : ℚ)))).map Prod.snd)) ∧
      (0 : ℤ) ≤ ((true, (2 : ℤ)) : Bool × ℤ).2 :=
  ⟨⟨by norm_num [cfgBurst], by norm_num [cfgBurst], by norm_num [cfgBurst],
      by decide⟩,
    remaining_never_negative cfgBurst (by norm_num [cfgBurst])
      (by norm_num [cfgBurst]) (by norm_num [cfgBurst])
      (List.replicate 4 ("user:burst", 0)) (by decide)
      (true, 2) (by rw [burstTrace_eval]; exact List.mem_cons_self _ _)⟩

/-- C4: once a key's entry has expired, the next `Allow` call is
indistinguishable from a call on a brand-new key — same decision, same
remaining, same written entry — and (capacity ≥ 1) it is allowed with
remaining = ⌊capacity - 1⌋. -/
theorem ttl_reset_fresh (cfg : LimiterConfig) (key : String) (s : Store) (now : ℚ)
    (e : StoredEntry) (hcap : 1 ≤ cfg.capacity)
    (hent : s (fullKey cfg key) = some e) (hexp : e.expiresAt < now) :
    (Allow cfg s key now).allowed = (Allow cfg emptyStore key now).allowed ∧
      (Allow cfg s key now).remaining = (Allow cfg emptyStore key now).remaining ∧
      (Allow cfg s key now).store (fullKey cfg key)
        = (Allow cfg emptyStore key now).store (fullKey cfg key) ∧
      (Allow cfg s key now).allowed = true ∧
      (Allow cfg s key now).remaining = ⌊cfg.capacity - 1⌋ := by
  have hload : loadState s (fullKey cfg key) now = none := by
    rw [loadState_some _ _ now _ hent]
    exact if_pos hexp
  have hcongr := Allow_congr_load cfg s emptyStore key now
    (by rw [hload, loadState_empty])
  have hfresh := Allow_fresh_allowed cfg s key now hcap hload
  exact ⟨hcongr.1, hcongr.2.1, hcongr.2.2, hfresh.1, hfresh.2⟩

/-- Witness for C4 on the TTL-test store: exhausted at time 0 with ttl 1,
called again at time 2.25. -/
theorem ttl_reset_fresh_witness :
    ((1 : ℚ) ≤ cfgTTL.capacity ∧
        ttlExhausted (fullKey cfgTTL "user:ttl")
          = some (⟨⟨0, 0⟩, 1⟩ : StoredEntry) ∧
        ((⟨⟨0, 0⟩, 1⟩ : StoredEntry).expiresAt < (9 : ℚ)/4)) ∧
      (Allow cfgTTL ttlExhausted "user:ttl" (9/4)).allowed = true :=
  ⟨⟨by norm_num [cfgTTL], ttlExhausted_entry, by norm_num⟩,
    (ttl_reset_fresh cfgTTL "user:ttl" ttlExhausted (9/4) ⟨⟨0, 0⟩, 1⟩
      (by norm_num [cfgTTL]) ttlExhausted_entry (by norm_num)).2.2.2.1⟩

/-- C5: under one limiter instance, a sequence of `Allow` calls on key `a`
leaves key `b`'s stored bucket and `Allow` results unchanged; a first call
for a fresh `b` afterwards is still allowed. -/
theorem per_key_isolation (cfg : LimiterConfig) (a b : String) (hab : a ≠ b)
    (s : Store) (times : List ℚ) (now : ℚ) :
    iterCallsOn cfg a s times (fullKey cfg b) = s (fullKey cfg b) ∧
      (Allow cfg (iterCallsOn cfg a s times) b now).allowed
        = (Allow cfg s b now).allowed ∧
      (Allow cfg (iterCallsOn cfg a s times) b now).remaining
        = (Allow cfg s b now).remaining ∧
      (1 ≤ cfg.capacity → s (fullKey cfg b) = none →
        (Allow cfg (iterCallsOn cfg a s times) b now).allowed = true) := by
  have hkey : fullKey cfg b ≠ fullKey cfg a :=
    fun h => hab (fullKey_inj_key cfg h).symm
  have hst := iterCallsOn_other cfg a (fullKey cfg b) hkey times s
  have hcong := Allow_congr cfg (iterCallsOn cfg a s times) s b now hst
  refine ⟨hst, hcong.1, hcong.2, ?_⟩
  intro hcap hfresh
  have hload : loadState (iterCallsOn cfg a s times) (fullKey cfg b) now = none := by
    unfold loadState
    rw [hst, hfresh]
  exact (Allow_fresh_allowed cfg _ b now hcap hload).1

/-- Witness for C5: exhausting key A with three immediate calls leaves a
first call for key B allowed. -/
theorem per_key_isolation_witness :
    ("user:A" ≠ "user:B" ∧ (1 : ℚ) ≤ cfgIso.capacity ∧
        emptyStore (fullKey cfgIso "user:B") = none) ∧
      (Allow cfgIso (iterCallsOn cfgIso "user:A" emptyStore [0, 0, 0])
        "user:B" 0).allowed = true :=
  ⟨⟨by decide, by norm_num [cfgIso], rfl⟩,
    (per_key_isolation cfgIso "user:A" "user:B" (by decide) emptyStore
      [0, 0, 0] 0).2.2.2 (by norm_num [cfgIso]) rfl⟩

/-- C6: two limiter instances sharing the store but namespaced by different
prefixes (same rate, capacity and ttl) never interfere: calls through
instance A leave instance B's bucket for the same caller key and B's
`Allow` results unchanged, and a first call through a fresh B is allowed. -/
theorem per_namespace_isolation (cfgA cfgB : LimiterConfig)
    (hp : cfgA.pfx ≠ cfgB.pfx)
    (hrate : cfgA.ratePerSecond = cfgB.ratePerSecond)
    (hcap : cfgA.capacity = cfgB.capacity) (httl : cfgA.ttl = cfgB.ttl)
    (key : String) (s : Store) (times : List ℚ) (now : ℚ) :
    iterCallsOn cfgA key s times (fullKey cfgB key) = s (fullKey cfgB key) ∧
      (Allow cfgB (iterCallsOn cfgA key s times) key now).allowed
        = (Allow cfgB s key now).allowed ∧
      (Allow cfgB (iterCallsOn cfgA key s times) key now).remaining
        = (Allow cfgB s key now).remaining ∧
      (1 ≤ cfgB.capacity → s (fullKey cfgB key) = none →
        (Allow cfgB (iterCallsOn cfgA key s times) key now).allowed = true) := by
  have hkey : fullKey cfgB key ≠ fullKey cfgA key :=
    fun h => hp (fullKey_inj_pfx h).symm
  have hst := iterCallsOn_other cfgA key (fullKey cfgB key) hkey times s
  have hcong := Allow_congr cfgB (iterCallsOn cfgA key s times) s key now hst
  refine ⟨hst, hcong.1, hcong.2, ?_⟩
  intro hcap2 hfresh
  have hload : loadState (iterCallsOn cfgA key s times) (fullKey cfgB key) now
      = none := by
    unfold loadState
    rw [hst, hfresh]
  exact (Allow_fresh_allowed cfgB _ key now hcap2 hload).1

/-- Witness for C6: exhausting through the A-prefixed instance leaves a
first call through the B-prefixed instance allowed for the same caller
key. -/
theorem per_namespace_isolation_witness :
    (cfgIsoA.pfx ≠ cfgIsoB.pfx ∧ (1 : ℚ) ≤ cfgIsoB.capacity ∧
        emptyStore (fullKey cfgIsoB "user:same") = none) ∧
      (Allow cfgIsoB (iterCallsOn cfgIsoA "user:same" emptyStore [0, 0, 0])
        "user:same" 0).allowed = true :=
  ⟨⟨by decide, by norm_num [cfgIsoB], rfl⟩,
    (per_namespace_isolation cfgIsoA cfgIsoB (by decide) rfl rfl rfl
      "user:same" emptyStore [0, 0, 0] 0).2.2.2 (by norm_num [cfgIsoB]) rfl⟩

end RateLimit
